import Mathlib

/-!
Verification of `ClassPortfolio.py` (class `Portfolio`).

Shallow embedding conventions:
* Python floats are modelled as `ℚ` (exact rationals); the claims under study
  are about control flow, state mutation and order relations, none of which
  depend on floating-point rounding.  Where the source computes an irrational
  quantity (`(1+RF)**(1/252)`, `np.exp`, square roots inside `std`) we use an
  explicit rational stand-in, documented at the definition; no claim below
  depends on the numeric value of those stand-ins.
* Python dicts are modelled as association lists in insertion order, which is
  exactly the iteration-order semantics of `dict` (insert new key at the end,
  update in place, `del` removes the key).
* A Python method that may raise is modelled as returning an outcome record
  carrying both the (possibly mutated) object state and an optional error:
  when an exception escapes a method the mutations performed before the raise
  survive on the object, so the post-raise state must be part of the model.
* `pandas` NaN entries are modelled as `Option` values (`none` = NaN); the
  NaN-skipping aggregations (`Series.min`) act on the `some` entries.
-/

/-- The distinct raise sites of the source, named after the spec's taxonomy
(§7): `domainError` is the `ValueError("Total portfolio value is zero.")` of
`getWeights`, `unknownPositionError` the sell-of-absent-symbol raise of
`update_stock`, `insufficientPositionError` the insufficient-value raise of
`update_stock`. -/
inductive PErr where
  | domainError : PErr
  | unknownPositionError : PErr
  | insufficientPositionError : PErr
deriving DecidableEq, Repr

/-- One holding, mirroring the fields of `ClassStock.Stock` that
`ClassPortfolio.py` reads or writes (`symbol`, `investment`, `value`,
`risk_free_rate`, `quantity`) plus the data series the Stock collaborator
serves (`closes` for `getClose()`, keyed by date, and `adjReturns` for
`getAdjustedReturns()`).  Modelled from the spec: `ClassStock.py` is not part
of the sources; spec §6 gives the collaborator interface (`amount()`,
`closeSeries()`, `adjustedReturnSeries()`, `quantity()`, plus raw mutable
fields for value/investment). -/
structure Stock where
  symbol : String
  investment : ℚ
  value : ℚ
  risk_free_rate : ℚ
  quantity : ℚ
  closes : List (Nat × ℚ)
  adjReturns : List ℚ
deriving DecidableEq, Repr

/-- Modelled from the spec: `amount()` reads the holding's current monetary
value (spec §3 "current monetary value"; `update_stock` reads
`stock.getAmount()` and writes `stock.value` interchangeably, so
`getAmount` returns the `value` field). -/
def Stock.getAmount (st : Stock) : ℚ := st.value

/-- Association-list lookup: value of the first pair whose key matches.
Python dict keys are unique, so "first" is "the" occurrence. -/
def alistLookup {κ ν : Type} [DecidableEq κ] : List (κ × ν) → κ → Option ν
  | [], _ => none
  | (k, v) :: rest, key => if k = key then some v else alistLookup rest key

/-- Association-list write with Python `dict` semantics: update in place if
the key is present, else append at the end (insertion order). -/
def alistSet {κ ν : Type} [DecidableEq κ] : List (κ × ν) → κ → ν → List (κ × ν)
  | [], key, v => [(key, v)]
  | (k, w) :: rest, key, v =>
      if k = key then (k, v) :: rest else (k, w) :: alistSet rest key v

/-- Association-list delete (Python `del d[key]`). -/
def alistRemove {κ ν : Type} [DecidableEq κ] : List (κ × ν) → κ → List (κ × ν)
  | [], _ => []
  | (k, w) :: rest, key =>
      if k = key then rest else (k, w) :: alistRemove rest key

/-- The portfolio state: the fields of `Portfolio.__init__`.  `stocks` is the
symbol-keyed holding dict, `weights` the cached weight dict, and the two
return caches start as `None`.  (`market_close`, `simulated_portfolio_values`
and `simulated_metrics` are not needed by any claim and are omitted;
`update_stock` never touches them.) -/
structure Portfolio where
  stocks : List (String × Stock)
  RF : ℚ
  cash_balance : ℚ
  weights : List (String × ℚ)
  portfolio_returns : Option (List ℚ)
  portfolio_excess_returns : Option (List ℚ)
deriving DecidableEq, Repr

/-- `sum(st.getAmount() for st in self.stocks.values())`. -/
def totalValue (stocks : List (String × Stock)) : ℚ :=
  (stocks.map (fun kv => kv.2.getAmount)).sum

/-- `Portfolio.getWeights`: fraction of each stock in the total portfolio;
raises (`domainError`) when the total value is exactly zero. -/
def getWeights (p : Portfolio) : Except PErr (List (String × ℚ)) :=
  let total := totalValue p.stocks
  if total = 0 then .error .domainError
  else .ok (p.stocks.map (fun kv => (kv.1, kv.2.getAmount / total)))

/-- Outcome of a mutating method: `error = none` means normal return; the
`state` is the portfolio object after the call, including any mutations that
happened before a raise. -/
structure UpdateOutcome where
  error : Option PErr
  state : Portfolio
deriving DecidableEq, Repr

/-- The weight-recalculation epilogue of `update_stock` (source lines 65-69):
`if len(self.stocks) > 0: self.weights = self.getWeights() else: self.weights
= {}`.  A raise inside `getWeights` escapes `update_stock` before the
assignment to `self.weights`, so on error the state keeps the old weights. -/
def recalcWeights (p : Portfolio) : UpdateOutcome :=
  if p.stocks.length > 0 then
    match getWeights p with
    | .error e => ⟨some e, p⟩
    | .ok w => ⟨none, { p with weights := w }⟩
  else ⟨none, { p with weights := [] }⟩

/-- The body of `update_stock` after the symbol is known to be present in
`stocks0` as `stock` (source lines 50-71).  `stocks0` is the holding dict at
that point (it already contains the freshly created holding when the call is
a buy of a new symbol). -/
def update_stock_apply (p : Portfolio) (stocks0 : List (String × Stock))
    (stock : Stock) (symbol : String) (quantity price : ℚ)
    (increase : Bool) : UpdateOutcome :=
  let current_value := stock.getAmount
  if increase then
    -- buy: stock.value = current_value + qty*price; stock.investment += qty*price
    let stock' := { stock with
      value := current_value + quantity * price
      investment := stock.investment + quantity * price }
    recalcWeights { p with stocks := alistSet stocks0 symbol stock' }
  else
    -- sell
    if stock.value < quantity * price then
      ⟨some .insufficientPositionError, { p with stocks := stocks0 }⟩
    else
      let stock' := { stock with value := current_value - quantity * price }
      let stocks1 :=
        if stock'.value = 0 then alistRemove stocks0 symbol
        else alistSet stocks0 symbol stock'
      recalcWeights { p with stocks := stocks1 }

/-- `Portfolio.update_stock` (source lines 41-71).  Selling an absent symbol
raises `unknownPositionError` with the state untouched; buying an absent
symbol first inserts `Stock(symbol, invested=0.0, value=0.0,
risk_free_rate=self.RF)` (a fresh holding has no collaborator data series).
The caches `portfolio_returns` / `portfolio_excess_returns` are never
touched, faithfully to the source. -/
def update_stock (p : Portfolio) (symbol : String) (quantity price : ℚ)
    (increase : Bool) : UpdateOutcome :=
  match alistLookup p.stocks symbol with
  | some stock => update_stock_apply p p.stocks stock symbol quantity price increase
  | none =>
      if increase then
        let newStock : Stock := ⟨symbol, 0, 0, p.RF, 0, [], []⟩
        update_stock_apply p (alistSet p.stocks symbol newStock) newStock
          symbol quantity price increase
      else
        ⟨some .unknownPositionError, p⟩

/-! ## Return engine (source lines 125-170) -/

/-- Weight lookup `w[sym]` with default 0.  In the scenarios exercised below
every column of the joined return table has a weight entry, matching the
alignment `pandas` requires for `df.dot(w)`. -/
def weightOf (w : List (String × ℚ)) (sym : String) : ℚ :=
  (alistLookup w sym).getD 0

/-- Row-wise dot product `df.dot(w)` of the joined adjusted-return table with
the weight series: pointwise sum of each contributing column scaled by its
weight.  `pandas` aligns columns on the shared date index; we model the
contributed series as sharing one index (equal length), which is the
configuration every claim below exercises. -/
def dfDot (cols : List (String × List ℚ)) (w : List (String × ℚ)) : List ℚ :=
  match cols with
  | [] => []
  | c :: rest =>
      (c :: rest).foldl
        (fun acc col => List.zipWith (· + ·) acc (col.2.map (weightOf w col.1 * ·)))
        (List.replicate c.2.length 0)

/-- `Portfolio.getAdjustedReturns` (source lines 125-140): join the non-empty
adjusted-return series of the holdings into a table, return the empty series
if no holding contributes, else the dot product with the current weights. -/
def getAdjustedReturns (p : Portfolio) : List ℚ :=
  let cols := (p.stocks.filter (fun kv => ¬ kv.2.adjReturns.isEmpty)).map
    (fun kv => (kv.2.symbol, kv.2.adjReturns))
  if cols.isEmpty then []
  else dfDot cols p.weights

/-- `Portfolio.getPortfolioReturns` (source lines 142-155): memoized
`getAdjustedReturns`.  Returns the value together with the post-call object
state (the cache field may have been filled).  The source caches the empty
series and the non-empty series alike, so both branches store `r`. -/
def getPortfolioReturns (p : Portfolio) : List ℚ × Portfolio :=
  match p.portfolio_returns with
  | some r => (r, p)
  | none =>
      let r := getAdjustedReturns p
      (r, { p with portfolio_returns := some r })

/-- `Portfolio.getPortfolioExcessReturns` (source lines 157-170): memoized
portfolio returns minus the daily risk-free rate.  The source computes
`daily_rf = (1 + self.RF) ** (1/252) - 1`, an irrational real in general; we
take the computed daily rate as the argument `daily_rf`, since no claim
depends on its numeric value.  `dropna` is the identity here because the
model has no NaN entries in the return series. -/
def getPortfolioExcessReturns (p : Portfolio) (daily_rf : ℚ) :
    List ℚ × Portfolio :=
  match p.portfolio_excess_returns with
  | some er => (er, p)
  | none =>
      let pr := (getPortfolioReturns p).1
      let p1 := (getPortfolioReturns p).2
      let er := pr.map (fun x => x - daily_rf)
      (er, { p1 with portfolio_excess_returns := some er })

/-! ## Risk metrics (source lines 265-291)

The metric bodies all start from `self.getPortfolioReturns().dropna()`; we
state them over that already-extracted return series (a `List ℚ`, NaN-free by
construction of the model), matching the cited source lines. -/

/-- `Series.mean()`: sum divided by length. -/
def listMean (l : List ℚ) : ℚ := l.sum / l.length

/-- `Series.mean()` as `pandas` computes it on a possibly-empty series: NaN
(`none`) when empty. -/
def listMeanOpt (l : List ℚ) : Option ℚ :=
  if l.isEmpty then none else some (listMean l)

/-- `np.percentile(pr, cl*100)` with the default linear interpolation: sort
ascending, take rank `r = cl * (n - 1)`, and interpolate linearly between the
two neighbouring order statistics (`a + frac * (b - a)` with
`frac = r - ⌊r⌋`); when `⌊r⌋` is the last index the second statistic defaults
to the first and the interpolation degenerates to it. -/
def npPercentile (pr : List ℚ) (cl : ℚ) : ℚ :=
  let s := List.insertionSort (· ≤ ·) pr
  let n := s.length
  let r := cl * ((n : ℚ) - 1)
  let k := (⌊r⌋).toNat
  let a := s.getD k 0
  let b := s.getD (k + 1) a
  a + (r - (k : ℚ)) * (b - a)

/-- `Portfolio.getVaR` (source lines 274-281): NaN on an empty series, else
the `cl*100`-th percentile of the return distribution. -/
def getVaR (pr : List ℚ) (cl : ℚ) : Option ℚ :=
  if pr.isEmpty then none else some (npPercentile pr cl)

/-- `Portfolio.getCVaR` (source lines 283-291): NaN on an empty series, else
the mean of the returns `≤ VaR(cl)` (NaN when no return qualifies, as
`pandas` mean of an empty selection). -/
def getCVaR (pr : List ℚ) (cl : ℚ) : Option ℚ :=
  if pr.isEmpty then none
  else listMeanOpt (pr.filter (fun x => x ≤ npPercentile pr cl))

/-- `(1 + pr).cumprod()` with accumulator `acc` (the entry before the head).
`cumProd1p pr = cumProdFrom 1 (pr.map (1 + ·))` is the cumulative product of
`1 + return`. -/
def cumProdFrom (acc : ℚ) : List ℚ → List ℚ
  | [] => []
  | f :: fs => (acc * f) :: cumProdFrom (acc * f) fs

/-- The cumulative value series `(1 + pr).cumprod()`. -/
def cumProd1p (pr : List ℚ) : List ℚ := cumProdFrom 1 (pr.map (1 + ·))

/-- Tail of `Series.expanding().max()` once the running maximum `m` over the
prefix is known. -/
def expandingMaxFrom (m : ℚ) : List ℚ → List ℚ
  | [] => []
  | c :: cs => (max m c) :: expandingMaxFrom (max m c) cs

/-- `Series.expanding().max()`: the left-to-right running maximum. -/
def expandingMax : List ℚ → List ℚ
  | [] => []
  | c :: cs => c :: expandingMaxFrom c cs

/-- The drawdown series `(cum / peak) - 1` with `pandas` float semantics:
division of the aligned entries, `none` (NaN) for the indeterminate `0 / 0`.
For series produced by `cumProd1p`/`expandingMax` a zero peak forces a zero
cumulative entry (`peak_zero_forces_cum_zero` below), so `0 / 0` is the only
division-by-zero shape that occurs. -/
def drawdownList (cum peak : List ℚ) : List (Option ℚ) :=
  (cum.zip peak).map (fun cp => if cp.2 = 0 then none else some (cp.1 / cp.2 - 1))

/-- `Series.min()` with the default `skipna=True`: minimum over the non-NaN
entries, NaN (`none`) when there is none. -/
def nanMin (l : List (Option ℚ)) : Option ℚ :=
  match l.filterMap id with
  | [] => none
  | x :: xs => some (xs.foldl min x)

/-- `Portfolio.getMaxDrawdown` (source lines 265-272), as a function of the
(already `dropna`-ed) portfolio return series: NaN on an empty series, else
the minimum of `(cumprod(1+r) / expanding-max) - 1`. -/
def getMaxDrawdown (pr : List ℚ) : Option ℚ :=
  if pr.isEmpty then none
  else
    let cum := cumProd1p pr
    nanMin (drawdownList cum (expandingMax cum))

/-! ## Monte Carlo simulator (source lines 501-535)

The claim under study (C5) cites lines 516-522: the per-path seeding loop.
`numpy`'s global generator is modelled as an explicit state threaded through
the computation; `np.random.seed(i)` replaces that state with a pure function
of `i`, discarding whatever state was there before.  The concrete pseudo-
random recurrence below (a 64-bit linear congruential step) stands in for
`numpy`'s Mersenne Twister — an external library, not repository code — and
the claims depend only on its determinism, not on its distribution. -/

/-- The global `numpy` random-generator state. -/
structure RandState where
  s : Nat
deriving DecidableEq, Repr

/-- `np.random.seed(i)`: the replacement state is a pure function of the seed
`i` alone. -/
def npSeed (i : Nat) : RandState := ⟨2 * i + 1⟩

/-- One pseudo-random draw from `N(0, std)` (models one element of
`np.random.normal(0, std_dev, ...)`): advance the generator state by a 64-bit
linear congruential step and map it into a signed value scaled by `std`. -/
def normalDraw (std : ℚ) (g : RandState) : ℚ × RandState :=
  let s' := (6364136223846793005 * g.s + 1442695040888963407) % (2 ^ 64)
  (std * (((s' % 2001 : Nat) : ℚ) - 1000) / 1000, ⟨s'⟩)

/-- `np.random.normal(0, std_dev, n)`: `n` successive draws, threading the
generator state. -/
def normalDraws (std : ℚ) : Nat → RandState → List ℚ × RandState
  | 0, g => ([], g)
  | n + 1, g =>
      let d := normalDraw std g
      let rest := normalDraws std n d.2
      (d.1 :: rest.1, rest.2)

/-- Rational stand-in for `np.exp` (irrational in general): a truncated
Taylor polynomial.  No claim depends on its values beyond determinism. -/
def expQ (x : ℚ) : ℚ := 1 + x + x ^ 2 / 2

/-- Rational stand-in for the square root inside `Series.std()`: four Newton
iterations from `x/2 + 1`.  No claim depends on its values beyond
determinism. -/
def sqrtQ (x : ℚ) : ℚ :=
  if x ≤ 0 then 0
  else
    let y0 := x / 2 + 1
    let y1 := (y0 + x / y0) / 2
    let y2 := (y1 + x / y1) / 2
    let y3 := (y2 + x / y2) / 2
    (y3 + x / y3) / 2

/-- `Series.var()` with the `pandas` default `ddof=1` (sample variance); 0 on
series too short for the unbiased estimator (where `pandas` yields NaN — the
Monte Carlo claims never hit that case). -/
def sampleVar (l : List ℚ) : ℚ :=
  if l.length ≤ 1 then 0
  else (l.map (fun x => (x - listMean l) ^ 2)).sum / ((l.length : ℚ) - 1)

/-- `Series.std()`: square root of the sample variance. -/
def sampleStd (l : List ℚ) : ℚ := sqrtQ (sampleVar l)

/-- The simulation loop body over the path indices `is` (source lines
517-522): for each path index `i`, reseed the global generator with `i`
(discarding the incoming state), draw `num_days` shocks, and build
`V0 * cumprod(exp(drift*dt + shock))` with `dt = 1/252`. -/
def mcPaths (V0 drift std : ℚ) (numDays : Nat) :
    List Nat → RandState → List (List ℚ) × RandState
  | [], g => ([], g)
  | i :: is, _g =>
      let g1 := npSeed i
      let draws := normalDraws std numDays g1
      let path := cumProdFrom V0 (draws.1.map (fun sh => expQ (drift * (1 / 252) + sh)))
      let rest := mcPaths V0 drift std numDays is draws.2
      (path :: rest.1, rest.2)

/-- `Portfolio.monteCarloSimulation` (source lines 501-535), restricted to
the path-table construction the claim cites: empty table if the portfolio
return series is empty; otherwise drift and volatility are derived from the
return series, the start value is the current total portfolio value, and each
path `i ∈ [0, num_simulations)` is generated from seed `i`.  The result is
the list of path columns together with the final generator state.
(The post-hoc per-path metric aggregation of lines 538-553 consumes the
finished table and plays no part in claim C5.) -/
def monteCarloSimulation (p : Portfolio) (num_simulations num_days : Nat)
    (g0 : RandState) : List (List ℚ) × RandState :=
  let pr := (getPortfolioReturns p).1
  if pr.isEmpty then ([], g0)
  else
    let mean_ret := listMean pr
    let std_dev := sampleStd pr
    let drift := mean_ret - 1 / 2 * std_dev ^ 2
    let last_port_val := totalValue p.stocks
    mcPaths last_port_val drift std_dev num_days (List.range num_simulations) g0

/-! ## Transaction replay engine (source lines 427-499) -/

/-- One `TransactionRecord` row of the ledger: date, side (already
lower-cased, as `tx["Type"].lower()` produces), symbol, quantity, price.
Dates are modelled as naturals in chronological order. -/
structure Tx where
  date : Nat
  ttype : String
  symbol : String
  quantity : ℚ
  price : ℚ
deriving DecidableEq, Repr

/-- The symbols carrying a column in `getAdjClosePrices()`: holdings whose
close series is non-empty (source lines 85-96). -/
def priceColumns (p : Portfolio) : List String :=
  (p.stocks.filter (fun kv => ¬ kv.2.closes.isEmpty)).map (fun kv => kv.2.symbol)

/-- `prices_df.loc[day, sym]`: the close of `sym` on `day`, `none` (NaN) when
that symbol has no price on that date. -/
def priceAt (p : Portfolio) (sym : String) (day : Nat) : Option ℚ :=
  match alistLookup p.stocks sym with
  | none => none
  | some st => alistLookup st.closes day

/-- The ascending, duplicate-free date index of the price matrix
(`prices_df.index.sort_values().unique()`): sorted union of the dates of all
contributing close series. -/
def allDates (p : Portfolio) : List Nat :=
  List.insertionSort (· ≤ ·)
    (((p.stocks.filter (fun kv => ¬ kv.2.closes.isEmpty)).map
        (fun kv => kv.2.closes.map (fun dp => dp.1))).flatten.dedup)

/-- One transaction applied to the replay state (source lines 457-478): a buy
needs `cash ≥ qty*price` (else logged and skipped), a sell needs held
quantity `≥ qty` (else logged and skipped); a sell that empties the position
removes it from the replay ledger. -/
def applyTx (cash : ℚ) (holdings : List (String × ℚ)) (tx : Tx) :
    ℚ × List (String × ℚ) :=
  if tx.ttype = "buy" then
    let cost := tx.quantity * tx.price
    if cash < cost then (cash, holdings)
    else (cash - cost,
      alistSet holdings tx.symbol ((alistLookup holdings tx.symbol).getD 0 + tx.quantity))
  else if tx.ttype = "sell" then
    if (alistLookup holdings tx.symbol).getD 0 < tx.quantity then (cash, holdings)
    else
      let cash' := cash + tx.quantity * tx.price
      let q' := (alistLookup holdings tx.symbol).getD 0 - tx.quantity
      if q' ≤ 0 then (cash', alistRemove holdings tx.symbol)
      else (cash', alistSet holdings tx.symbol q')
  else (cash, holdings)

/-- One emitted row of the dynamic time series: date, cash after the day's
transactions, the per-symbol values when `by_stock` is requested, and the
total `PortfolioValue` (`none` models a NaN that entered via a missing
price). -/
structure ReplayRow where
  date : Nat
  cash : ℚ
  stockVals : List (String × Option ℚ)
  value : Option ℚ
deriving DecidableEq, Repr

/-- Mark-to-market of one day (source lines 480-494): starting from the cash
value, add `quantity * price` for every held symbol that has a price column,
with NaN absorbing the running total as IEEE addition does. -/
def dayValue (cash : ℚ) (vals : List (String × Option ℚ)) : Option ℚ :=
  vals.foldl
    (fun acc sv =>
      match acc, sv.2 with
      | some a, some v => some (a + v)
      | _, _ => none)
    (some cash)

/-- Process the ascending date index (source lines 454-494): apply the day's
transactions in ledger order, then value the holdings at that day's prices
and emit the row. -/
def replayDays (p : Portfolio) (txs : List Tx) (by_stock : Bool) :
    List Nat → ℚ → List (String × ℚ) → List ReplayRow
  | [], _, _ => []
  | day :: days, cash, holdings =>
      let dayTxs := txs.filter (fun tx => tx.date = day)
      let stepped := dayTxs.foldl (fun ch tx => applyTx ch.1 ch.2 tx) (cash, holdings)
      let vals := (stepped.2.filter (fun sq => sq.1 ∈ priceColumns p)).map
        (fun sq => (sq.1, (priceAt p sq.1 day).map (fun px => sq.2 * px)))
      let row : ReplayRow :=
        ⟨day, stepped.1, if by_stock then vals else [], dayValue stepped.1 vals⟩
      row :: replayDays p txs by_stock days stepped.1 stepped.2

/-- `Portfolio.getDynamicTimeSeries` (source lines 427-499): empty table when
the ledger is `None` or empty, or when the price matrix has no column;
otherwise one row per price-matrix date in ascending order, starting from the
portfolio's current cash balance and per-holding quantities.  The source
sorts the ledger by date with a stable sort and then selects each day's
transactions; selecting by `tx.date = day` over the original ledger applies
the same transactions in the same (ledger) order within each day. -/
def getDynamicTimeSeries (p : Portfolio) (transaction_log : Option (List Tx))
    (by_stock : Bool) : List ReplayRow :=
  match transaction_log with
  | none => []
  | some txs =>
      if txs.isEmpty then []
      else
        let dates := allDates p
        if dates.isEmpty then []
        else
          replayDays p txs by_stock dates p.cash_balance
            (p.stocks.map (fun kv => (kv.1, kv.2.quantity)))

/-! ## Helper lemmas -/

theorem recalcWeights_cash (p : Portfolio) :
    (recalcWeights p).state.cash_balance = p.cash_balance := by
  unfold recalcWeights
  split
  · cases hg : getWeights p <;> simp
  · rfl

theorem recalcWeights_error_ne_insufficient (p : Portfolio) :
    (recalcWeights p).error ≠ some PErr.insufficientPositionError := by
  unfold recalcWeights getWeights
  split
  · split
    · rename_i e heq
      dsimp only at heq
      split at heq
      · simp at heq
        simp [← heq]
      · simp at heq
    · simp
  · simp

theorem alistSet_ne_nil {κ ν : Type} [DecidableEq κ]
    (l : List (κ × ν)) (k : κ) (v : ν) : alistSet l k v ≠ [] := by
  cases l with
  | nil => simp [alistSet]
  | cons hd tl =>
      unfold alistSet
      split <;> simp

theorem alistLookup_set_self {κ ν : Type} [DecidableEq κ]
    (l : List (κ × ν)) (k : κ) (v : ν) :
    alistLookup (alistSet l k v) k = some v := by
  induction l with
  | nil => simp [alistSet, alistLookup]
  | cons hd tl ih =>
      unfold alistSet
      split
      · rename_i h
        simp [alistLookup, h]
      · rename_i h
        simp [alistLookup, h, ih]

theorem totalValue_cons (kv : String × Stock) (l : List (String × Stock)) :
    totalValue (kv :: l) = kv.2.value + totalValue l := by
  simp [totalValue, Stock.getAmount]

theorem totalValue_alistSet (l : List (String × Stock)) (sym : String)
    (st st' : Stock) (h : alistLookup l sym = some st) :
    totalValue (alistSet l sym st') = totalValue l - st.value + st'.value := by
  induction l with
  | nil => simp [alistLookup] at h
  | cons hd tl ih =>
      unfold alistLookup at h
      unfold alistSet
      split
      · rename_i hk
        rw [if_pos hk] at h
        simp only [Option.some.injEq] at h
        rw [totalValue_cons, totalValue_cons, ← h]
        ring
      · rename_i hk
        rw [if_neg hk] at h
        rw [totalValue_cons, totalValue_cons, ih h]
        ring

theorem totalValue_nonneg (l : List (String × Stock))
    (hnn : ∀ kv ∈ l, 0 ≤ kv.2.value) : 0 ≤ totalValue l := by
  induction l with
  | nil => simp [totalValue]
  | cons x xs ihx =>
      rw [totalValue_cons]
      have hx := hnn x (by simp)
      have hxs := ihx (fun kv hkv => hnn kv (by simp [hkv]))
      linarith

theorem value_le_totalValue (l : List (String × Stock)) (sym : String)
    (st : Stock) (h : alistLookup l sym = some st)
    (hnn : ∀ kv ∈ l, 0 ≤ kv.2.value) : st.value ≤ totalValue l := by
  induction l with
  | nil => simp [alistLookup] at h
  | cons hd tl ih =>
      unfold alistLookup at h
      rw [totalValue_cons]
      split at h
      · simp only [Option.some.injEq] at h
        subst h
        have htl : 0 ≤ totalValue tl :=
          totalValue_nonneg tl (fun kv hkv => hnn kv (by simp [hkv]))
        linarith
      · have hhd := hnn hd (by simp)
        have := ih h (fun kv hkv => hnn kv (by simp [hkv]))
        linarith

theorem sum_map_div_total (l : List (String × Stock)) (t : ℚ) :
    (l.map (fun kv => kv.2.getAmount / t)).sum = totalValue l / t := by
  induction l with
  | nil => simp [totalValue]
  | cons hd tl ih =>
      simp only [List.map_cons, List.sum_cons, ih, totalValue_cons]
      rw [Stock.getAmount, add_div]

theorem recalcWeights_spec (p : Portfolio) (h : (recalcWeights p).error = none) :
    (recalcWeights p).state.stocks = p.stocks ∧
    (p.stocks ≠ [] →
      (recalcWeights p).state.weights =
        p.stocks.map (fun kv => (kv.1, kv.2.getAmount / totalValue p.stocks)) ∧
      ((recalcWeights p).state.weights.map (fun kv => kv.2)).sum = 1) ∧
    (p.stocks = [] → (recalcWeights p).state.weights = []) := by
  unfold recalcWeights at h ⊢
  by_cases hl : p.stocks.length > 0
  · rw [if_pos hl] at h ⊢
    cases hg : getWeights p with
    | error e => rw [hg] at h; simp at h
    | ok w =>
        have hstocks_ne : p.stocks ≠ [] := by
          intro hnil; rw [hnil] at hl; simp at hl
        have htot : totalValue p.stocks ≠ 0 := by
          unfold getWeights at hg
          dsimp only at hg
          split at hg
          · simp at hg
          · assumption
        have hw : w = p.stocks.map
            (fun kv => (kv.1, kv.2.getAmount / totalValue p.stocks)) := by
          unfold getWeights at hg
          dsimp only at hg
          split at hg
          · simp at hg
          · simp only [Except.ok.injEq] at hg; exact hg.symm
        refine ⟨rfl, fun _ => ⟨by simp [hw], ?_⟩, fun hnil => absurd hnil hstocks_ne⟩
        dsimp only
        rw [hw, List.map_map]
        have hcomp : ((fun kv : String × ℚ => kv.2) ∘
            (fun kv : String × Stock => (kv.1, kv.2.getAmount / totalValue p.stocks)))
            = fun kv : String × Stock => kv.2.getAmount / totalValue p.stocks := rfl
        rw [hcomp, sum_map_div_total, div_self htot]
  · rw [if_neg hl] at h ⊢
    have hnil : p.stocks = [] := by
      cases hs : p.stocks with
      | nil => rfl
      | cons a l => rw [hs] at hl; simp at hl
    exact ⟨rfl, fun hne => absurd hnil hne, fun _ => rfl⟩

theorem update_stock_success_is_recalc (p : Portfolio) (sym : String)
    (q price : ℚ) (inc : Bool)
    (h : (update_stock p sym q price inc).error = none) :
    ∃ p' : Portfolio, update_stock p sym q price inc = recalcWeights p' := by
  unfold update_stock update_stock_apply at h ⊢
  cases halt : alistLookup p.stocks sym with
  | some stock =>
      rw [halt] at h
      dsimp only at h ⊢
      cases inc with
      | true => exact ⟨_, rfl⟩
      | false =>
          simp only [Bool.false_eq_true, if_false] at h ⊢
          split at h
          · simp at h
          · rename_i hge
            rw [if_neg hge]
            exact ⟨_, rfl⟩
  | none =>
      rw [halt] at h
      dsimp only at h ⊢
      cases inc with
      | true => exact ⟨_, rfl⟩
      | false => simp at h

/-! ## Claim theorems -/

/-- Claim C3: for a held symbol, a sell via `update_stock` raises
`InsufficientPositionError` exactly when `quantity * price` exceeds the
holding's current amount, and in that case the call leaves the portfolio
object — holdings, the holding's amount and investment, and the weight
mapping — exactly as it was (the outcome state equals the pre-call state). -/
theorem sell_insufficient_raises_iff_and_atomic (p : Portfolio) (sym : String)
    (q price : ℚ) (st : Stock) (h : alistLookup p.stocks sym = some st) :
    ((update_stock p sym q price false).error = some PErr.insufficientPositionError
      ↔ st.value < q * price) ∧
    (st.value < q * price →
      update_stock p sym q price false = ⟨some PErr.insufficientPositionError, p⟩) := by
  unfold update_stock
  rw [h]
  unfold update_stock_apply
  simp only [Bool.false_eq_true, if_false]
  refine ⟨⟨fun he => ?_, fun hlt => ?_⟩, fun hlt => ?_⟩
  · by_contra hlt
    rw [if_neg hlt] at he
    dsimp only at he
    exact recalcWeights_error_ne_insufficient _ he
  · rw [if_pos hlt]
  · rw [if_pos hlt]

/-- Concrete portfolio used by the C3 witness: one holding of value 100. -/
def c3P : Portfolio :=
  ⟨[("A", ⟨"A", 100, 100, 0, 1, [], []⟩)], 0, 50, [("A", 1)], none, none⟩

/-- Witness for C3: selling `1 × 200` out of a holding of value 100 trips the
insufficient-position error and leaves the state untouched. -/
theorem sell_insufficient_raises_iff_and_atomic_witness :
    alistLookup c3P.stocks "A" = some ⟨"A", 100, 100, 0, 1, [], []⟩ ∧
    (((update_stock c3P "A" 1 200 false).error = some PErr.insufficientPositionError
        ↔ (⟨"A", 100, 100, 0, 1, [], []⟩ : Stock).value < 1 * 200) ∧
      ((⟨"A", 100, 100, 0, 1, [], []⟩ : Stock).value < 1 * 200 →
        update_stock c3P "A" 1 200 false = ⟨some PErr.insufficientPositionError, c3P⟩)) :=
  ⟨by decide,
    sell_insufficient_raises_iff_and_atomic c3P "A" 1 200
      ⟨"A", 100, 100, 0, 1, [], []⟩ (by decide)⟩

/-- Claim C4: after every successful `update_stock` call, if the holding
mapping is non-empty then the weight mapping assigns each held symbol the
fraction `amount / Σ amounts` and the weights sum to exactly 1 (the rational
model sharpens "within floating tolerance"); if the mutation emptied the
portfolio, the weight mapping is empty. -/
theorem weights_consistent_after_update (p : Portfolio) (sym : String)
    (q price : ℚ) (inc : Bool)
    (h : (update_stock p sym q price inc).error = none) :
    ((update_stock p sym q price inc).state.stocks ≠ [] →
      (update_stock p sym q price inc).state.weights =
        (update_stock p sym q price inc).state.stocks.map
          (fun kv => (kv.1, kv.2.getAmount /
            totalValue (update_stock p sym q price inc).state.stocks)) ∧
      (((update_stock p sym q price inc).state.weights.map (fun kv => kv.2)).sum = 1)) ∧
    ((update_stock p sym q price inc).state.stocks = [] →
      (update_stock p sym q price inc).state.weights = []) := by
  obtain ⟨p', hp'⟩ := update_stock_success_is_recalc p sym q price inc h
  rw [hp'] at h ⊢
  have spec := recalcWeights_spec p' h
  rw [spec.1]
  exact ⟨spec.2.1, spec.2.2⟩

/-- Concrete portfolio used by the C4 witness: holdings of value 6000 and
4000 (the spec's worked example has weights 0.6 / 0.4). -/
def c4P : Portfolio :=
  ⟨[("A", ⟨"A", 6000, 6000, 0, 1, [], []⟩), ("B", ⟨"B", 4000, 4000, 0, 1, [], []⟩)],
    0, 0, [("A", 3/5), ("B", 2/5)], none, none⟩

/-- Witness for C4: a successful buy of `10 × 50` of "A" leaves a non-empty
portfolio whose weights are the amount fractions and sum to 1. -/
theorem weights_consistent_after_update_witness :
    (update_stock c4P "A" 10 50 true).error = none ∧
    (((update_stock c4P "A" 10 50 true).state.stocks ≠ [] →
      (update_stock c4P "A" 10 50 true).state.weights =
        (update_stock c4P "A" 10 50 true).state.stocks.map
          (fun kv => (kv.1, kv.2.getAmount /
            totalValue (update_stock c4P "A" 10 50 true).state.stocks)) ∧
      (((update_stock c4P "A" 10 50 true).state.weights.map (fun kv => kv.2)).sum = 1)) ∧
    ((update_stock c4P "A" 10 50 true).state.stocks = [] →
      (update_stock c4P "A" 10 50 true).state.weights = [])) := by
  have h : (update_stock c4P "A" 10 50 true).error = none := by
    norm_num [update_stock, update_stock_apply, recalcWeights, getWeights,
      alistLookup, alistSet, totalValue, Stock.getAmount, c4P]
  exact ⟨h, weights_consistent_after_update c4P "A" 10 50 true h⟩

/-- Claim C8: `update_stock` never changes the portfolio's cash balance —
on every call (buy or sell, successful or raising) the post-call state
carries the pre-call `cash_balance` (frame condition; only the transaction
replay engine works with cash, and it keeps its own ledger). -/
theorem update_stock_preserves_cash (p : Portfolio) (sym : String)
    (q price : ℚ) (inc : Bool) :
    (update_stock p sym q price inc).state.cash_balance = p.cash_balance := by
  unfold update_stock update_stock_apply
  cases halt : alistLookup p.stocks sym with
  | some stock =>
      dsimp only
      cases inc with
      | true => exact recalcWeights_cash _
      | false =>
          simp only [Bool.false_eq_true, if_false]
          split
          · rfl
          · exact recalcWeights_cash _
  | none =>
      dsimp only
      cases inc with
      | true => exact recalcWeights_cash _
      | false => rfl

/-- Claim C9: the transaction replay engine returns an empty table when the
ledger is missing (`None`) or empty, whatever the portfolio and its price
dates. -/
theorem dynamicTimeSeries_empty_ledger (p : Portfolio) (by_stock : Bool) :
    getDynamicTimeSeries p none by_stock = [] ∧
    getDynamicTimeSeries p (some []) by_stock = [] :=
  ⟨rfl, rfl⟩

/-- Concrete start state for C10: one holding "A" of value 5; selling it in
full leaves the (reachable) empty portfolio on which the failing buy runs. -/
def c10P : Portfolio :=
  ⟨[("A", ⟨"A", 5, 5, 0, 1, [], []⟩)], 0, 100, [("A", 1)], none, none⟩

/-- Claim C10: `update_stock` is not atomic on error for buys — buying a new
symbol with `quantity * price = 0` into an empty portfolio first inserts the
zero-value holding and then raises `DomainError` from the weight
recomputation (total value zero), leaving the holding mapping mutated even
though the call fails. -/
theorem update_stock_buy_mutates_on_domainError :
    (update_stock c10P "A" 1 5 false).error = none ∧
    (update_stock c10P "A" 1 5 false).state.stocks = [] ∧
    (update_stock (update_stock c10P "A" 1 5 false).state "B" 0 10 true).error
      = some PErr.domainError ∧
    (update_stock (update_stock c10P "A" 1 5 false).state "B" 0 10 true).state.stocks
      = [("B", ⟨"B", 0, 0, 0, 0, [], []⟩)] := by
  norm_num [update_stock, update_stock_apply, recalcWeights, getWeights,
    alistLookup, alistSet, alistRemove, totalValue, Stock.getAmount, c10P]

theorem recalcWeights_of_total_ne (p : Portfolio) (hne : p.stocks ≠ [])
    (htot : totalValue p.stocks ≠ 0) :
    recalcWeights p = ⟨none, { p with
      weights := p.stocks.map
        (fun kv => (kv.1, kv.2.getAmount / totalValue p.stocks)) }⟩ := by
  unfold recalcWeights getWeights
  rw [if_pos (by
    cases hp : p.stocks with
    | nil => exact absurd hp hne
    | cons a l => simp [hp])]
  dsimp only
  rw [if_neg htot]

theorem update_stock_buy_found (p : Portfolio) (sym : String) (q price : ℚ)
    (st : Stock) (h : alistLookup p.stocks sym = some st)
    (htot : totalValue p.stocks + q * price ≠ 0) :
    ∃ w, update_stock p sym q price true =
      ⟨none, { p with
        stocks := alistSet p.stocks sym
          { st with value := st.value + q * price
                    investment := st.investment + q * price },
        weights := w }⟩ := by
  unfold update_stock
  rw [h]
  unfold update_stock_apply
  dsimp only [Stock.getAmount]
  rw [if_pos rfl]
  have hX : totalValue (alistSet p.stocks sym
      { st with value := st.value + q * price
                investment := st.investment + q * price }) =
      totalValue p.stocks + q * price := by
    rw [totalValue_alistSet p.stocks sym st _ h]
    dsimp only
    ring
  exact ⟨_, recalcWeights_of_total_ne _ (alistSet_ne_nil _ _ _) (by rw [hX]; exact htot)⟩

theorem update_stock_sell_found_keep (p : Portfolio) (sym : String)
    (q price : ℚ) (st : Stock) (h : alistLookup p.stocks sym = some st)
    (hge : ¬ st.value < q * price)
    (hnz : st.value - q * price ≠ 0)
    (htot : totalValue p.stocks - q * price ≠ 0) :
    ∃ w, update_stock p sym q price false =
      ⟨none, { p with
        stocks := alistSet p.stocks sym { st with value := st.value - q * price },
        weights := w }⟩ := by
  unfold update_stock
  rw [h]
  unfold update_stock_apply
  simp only [Bool.false_eq_true, if_false]
  rw [if_neg hge]
  dsimp only [Stock.getAmount]
  rw [if_neg hnz]
  have hX : totalValue (alistSet p.stocks sym
      { st with value := st.value - q * price }) =
      totalValue p.stocks - q * price := by
    rw [totalValue_alistSet p.stocks sym st _ h]
    dsimp only
    ring
  exact ⟨_, recalcWeights_of_total_ne _ (alistSet_ne_nil _ _ _) (by rw [hX]; exact htot)⟩

/-- Concrete portfolio for claim C2: one holding "A" with amount 100 and
investment 100. -/
def c2P : Portfolio :=
  ⟨[("A", ⟨"A", 100, 100, 0, 1, [], []⟩)], 0, 50, [("A", 1)], none, none⟩

/-- Counterexample to claim C2 as stated: buying `1 × 10` of "A" (with
`quantity * price = 10 ≤ 100 =` current amount) and then selling `1 × 10`
returns the holding's amount to 100 but leaves its investment at 110, not at
the pre-buy 100 — the sell branch of `update_stock` never decreases
`investment`, so the round-trip restores the amount only. -/
theorem buy_sell_roundTrip_counterexample :
    (update_stock c2P "A" 1 10 true).error = none ∧
    (update_stock (update_stock c2P "A" 1 10 true).state "A" 1 10 false).error = none ∧
    (alistLookup (update_stock (update_stock c2P "A" 1 10 true).state
        "A" 1 10 false).state.stocks "A").map Stock.value = some 100 ∧
    (alistLookup (update_stock (update_stock c2P "A" 1 10 true).state
        "A" 1 10 false).state.stocks "A").map Stock.investment = some 110 ∧
    (alistLookup (update_stock (update_stock c2P "A" 1 10 true).state
        "A" 1 10 false).state.stocks "A").map Stock.investment ≠
      (alistLookup c2P.stocks "A").map Stock.investment := by
  norm_num [update_stock, update_stock_apply, recalcWeights, getWeights,
    alistLookup, alistSet, alistRemove, totalValue, Stock.getAmount, c2P]

/-- Claim C2 (amended): for a held symbol with non-negative holding values,
`0 < quantity * price` and `quantity * price` no greater than the holding's
current amount, buying and then selling the identical quantity at the
identical price succeeds and returns the holding's **amount** to its pre-buy
value, but leaves its **investment** increased by `quantity * price` (the
sell never adjusts investment), rather than restoring both as the claim
stated. -/
theorem buy_sell_roundTrip_amended (p : Portfolio) (sym : String)
    (q price : ℚ) (st : Stock)
    (h : alistLookup p.stocks sym = some st)
    (hqp : 0 < q * price)
    (hle : q * price ≤ st.value)
    (hnn : ∀ kv ∈ p.stocks, 0 ≤ kv.2.value) :
    (update_stock p sym q price true).error = none ∧
    (update_stock (update_stock p sym q price true).state sym q price false).error = none ∧
    ∃ st', alistLookup (update_stock (update_stock p sym q price true).state
        sym q price false).state.stocks sym = some st' ∧
      st'.value = st.value ∧
      st'.investment = st.investment + q * price := by
  have hv : 0 < st.value := lt_of_lt_of_le hqp hle
  have htot0 : 0 < totalValue p.stocks :=
    lt_of_lt_of_le hv (value_le_totalValue p.stocks sym st h hnn)
  have htot1 : totalValue p.stocks + q * price ≠ 0 := by positivity
  obtain ⟨w1, hw1⟩ := update_stock_buy_found p sym q price st h htot1
  rw [hw1]
  dsimp only
  refine ⟨rfl, ?_⟩
  have h1 : alistLookup (alistSet p.stocks sym
      { st with value := st.value + q * price
                investment := st.investment + q * price }) sym =
      some { st with value := st.value + q * price
                     investment := st.investment + q * price } :=
    alistLookup_set_self _ _ _
  have hge : ¬ ({ st with value := st.value + q * price
                          investment := st.investment + q * price } : Stock).value
      < q * price := by
    dsimp only
    linarith
  have hnz : ({ st with value := st.value + q * price
                        investment := st.investment + q * price } : Stock).value
      - q * price ≠ 0 := by
    dsimp only
    intro hcon
    have : st.value = 0 := by linarith
    exact absurd this (ne_of_gt hv)
  have hXtot : totalValue (alistSet p.stocks sym
      { st with value := st.value + q * price
                investment := st.investment + q * price }) =
      totalValue p.stocks + q * price := by
    rw [totalValue_alistSet p.stocks sym st _ h]
    dsimp only
    ring
  have htot2 : totalValue (alistSet p.stocks sym
      { st with value := st.value + q * price
                investment := st.investment + q * price }) - q * price ≠ 0 := by
    rw [hXtot]
    intro hcon
    have : totalValue p.stocks = 0 := by linarith
    exact absurd this (ne_of_gt htot0)
  obtain ⟨w2, hw2⟩ := update_stock_sell_found_keep
    { p with
      stocks := alistSet p.stocks sym
        { st with
          value := st.value + q * price
          investment := st.investment + q * price }
      weights := w1 }
    sym q price _ h1 hge hnz htot2
  rw [hw2]
  dsimp only
  exact ⟨rfl, _, alistLookup_set_self _ _ _, by dsimp only; ring, rfl⟩

/-- Witness for the amended C2: on `c2P` (holding "A" of amount 100,
investment 100), buying then selling `1 × 10` restores the amount to 100
while the investment becomes `100 + 10`. -/
theorem buy_sell_roundTrip_amended_witness :
    (alistLookup c2P.stocks "A" = some ⟨"A", 100, 100, 0, 1, [], []⟩ ∧
      (0 : ℚ) < 1 * 10 ∧ (1 : ℚ) * 10 ≤ (100 : ℚ) ∧
      (∀ kv ∈ c2P.stocks, 0 ≤ kv.2.value)) ∧
    ((update_stock c2P "A" 1 10 true).error = none ∧
      (update_stock (update_stock c2P "A" 1 10 true).state "A" 1 10 false).error = none ∧
      ∃ st', alistLookup (update_stock (update_stock c2P "A" 1 10 true).state
          "A" 1 10 false).state.stocks "A" = some st' ∧
        st'.value = (⟨"A", 100, 100, 0, 1, [], []⟩ : Stock).value ∧
        st'.investment = (⟨"A", 100, 100, 0, 1, [], []⟩ : Stock).investment + 1 * 10) :=
  ⟨⟨by decide, by norm_num, by norm_num,
      by
        intro kv hkv
        simp only [c2P, List.mem_singleton] at hkv
        rw [hkv]
        norm_num⟩,
    buy_sell_roundTrip_amended c2P "A" 1 10 ⟨"A", 100, 100, 0, 1, [], []⟩
      (by decide) (by norm_num) (by norm_num)
      (by
        intro kv hkv
        simp only [c2P, List.mem_singleton] at hkv
        rw [hkv]
        norm_num)⟩

theorem mcPaths_independent_of_generator (V0 drift std : ℚ) (numDays : Nat) :
    ∀ (is : List Nat) (g g' : RandState),
      (mcPaths V0 drift std numDays is g).1 = (mcPaths V0 drift std numDays is g').1
  | [], _, _ => rfl
  | _ :: _, _, _ => by
      simp only [mcPaths]

/-- Claim C5: the Monte Carlo path table is a pure function of the portfolio,
the number of paths and the horizon — it does not depend on the incoming
state of the random generator, because each path `i` reseeds the generator
with `seed = i` before drawing (and the model has no wall clock at all).  In
particular two successive calls with identical inputs (the second starting
from whatever generator state the first left behind) produce identical path
tables. -/
theorem monteCarlo_deterministic (p : Portfolio) (num_simulations num_days : Nat)
    (g g' : RandState) :
    (monteCarloSimulation p num_simulations num_days g).1 =
      (monteCarloSimulation p num_simulations num_days g').1 := by
  unfold monteCarloSimulation
  dsimp only
  by_cases hpr : (getPortfolioReturns p).1.isEmpty = true
  · rw [if_pos hpr, if_pos hpr]
  · rw [if_neg hpr, if_neg hpr]
    exact mcPaths_independent_of_generator _ _ _ _ _ _ _

theorem exists_mem_le_npPercentile (pr : List ℚ) (cl : ℚ)
    (hne : pr ≠ []) (h0 : 0 ≤ cl) (h1 : cl ≤ 1) :
    ∃ x ∈ pr, x ≤ npPercentile pr cl := by
  obtain ⟨s, hs⟩ : ∃ s, List.insertionSort (· ≤ ·) pr = s := ⟨_, rfl⟩
  have hperm : s.Perm pr := hs ▸ List.perm_insertionSort _ pr
  have hsort : s.Sorted (· ≤ ·) := hs ▸ List.sorted_insertionSort _ pr
  have hpe : npPercentile pr cl =
      s.getD (⌊cl * ((s.length : ℚ) - 1)⌋).toNat 0 +
      (cl * ((s.length : ℚ) - 1) - (((⌊cl * ((s.length : ℚ) - 1)⌋).toNat : ℕ) : ℚ)) *
      (s.getD ((⌊cl * ((s.length : ℚ) - 1)⌋).toNat + 1)
         (s.getD (⌊cl * ((s.length : ℚ) - 1)⌋).toNat 0) -
       s.getD (⌊cl * ((s.length : ℚ) - 1)⌋).toNat 0) := by
    rw [← hs]
    rfl
  set n : ℕ := s.length with hn
  set r : ℚ := cl * ((n : ℚ) - 1) with hr
  set k : ℕ := (⌊r⌋).toNat with hk
  set a : ℚ := s.getD k 0 with ha
  set b : ℚ := s.getD (k + 1) a with hb
  have hnpos : 0 < n := by
    rw [hn, hperm.length_eq]
    exact List.length_pos.mpr hne
  have hn1 : (1 : ℚ) ≤ (n : ℚ) := by exact_mod_cast hnpos
  have hr0 : 0 ≤ r := by
    rw [hr]
    exact mul_nonneg h0 (by linarith)
  have hrle : r ≤ (n : ℚ) - 1 := by
    rw [hr]
    nlinarith
  have hkr : (k : ℚ) ≤ r := by
    have hfl : (0 : ℤ) ≤ ⌊r⌋ := Int.floor_nonneg.mpr hr0
    calc ((k : ℕ) : ℚ) = ((⌊r⌋ : ℤ) : ℚ) := by
          rw [hk]
          exact_mod_cast congrArg (fun z : ℤ => (z : ℚ)) (Int.toNat_of_nonneg hfl)
    _ ≤ r := Int.floor_le r
  have hkn : k < n := by
    have h3 : (k : ℚ) < (n : ℚ) := by linarith
    exact_mod_cast h3
  have hkn' : k < s.length := by rw [← hn]; exact hkn
  have hfrac : 0 ≤ r - (k : ℚ) := by linarith
  have hamem : a ∈ pr := by
    rw [ha, List.getD_eq_getElem s 0 hkn']
    exact hperm.mem_iff.mp (List.getElem_mem hkn')
  have hab : a ≤ b := by
    rw [hb]
    by_cases hkb : k + 1 < s.length
    · rw [List.getD_eq_getElem s a hkb, ha, List.getD_eq_getElem s 0 hkn']
      have hrel := List.Sorted.rel_get_of_lt hsort
        (a := ⟨k, hkn'⟩) (b := ⟨k + 1, hkb⟩) (by simp)
      simpa using hrel
    · rw [List.getD_eq_default s a (by omega)]
  refine ⟨a, hamem, ?_⟩
  rw [hpe]
  nlinarith [mul_nonneg hfrac (by linarith : (0 : ℚ) ≤ b - a)]

theorem listMean_le_of_forall_le (l : List ℚ) (v : ℚ) (hne : l ≠ [])
    (h : ∀ x ∈ l, x ≤ v) : listMean l ≤ v := by
  have hlen : 0 < (l.length : ℚ) := by exact_mod_cast List.length_pos.mpr hne
  have hsum : l.sum ≤ l.length • v := List.sum_le_card_nsmul l v h
  rw [nsmul_eq_mul] at hsum
  rw [listMean, div_le_iff₀ hlen]
  linarith

/-- Claim C6: for every non-empty return series and confidence level
`cl ∈ [0, 1]`, `getVaR` and `getCVaR` both return values and
`CVaR(cl) ≤ VaR(cl)`: the tail selection `pr[pr ≤ VaR]` always contains at
least one observation (the percentile with linear interpolation never drops
below an order statistic it interpolates from), and the mean of values all
`≤ VaR` is `≤ VaR`. -/
theorem cvar_le_var (pr : List ℚ) (cl : ℚ) (hne : pr ≠ [])
    (h0 : 0 ≤ cl) (h1 : cl ≤ 1) :
    ∃ v c, getVaR pr cl = some v ∧ getCVaR pr cl = some c ∧ c ≤ v := by
  obtain ⟨x, hxmem, hxle⟩ := exists_mem_le_npPercentile pr cl hne h0 h1
  have hprE : ¬ pr.isEmpty = true := by
    simp only [List.isEmpty_iff]
    exact hne
  have hxf : x ∈ pr.filter (fun y => y ≤ npPercentile pr cl) :=
    List.mem_filter.mpr ⟨hxmem, by simpa using hxle⟩
  have hfne : pr.filter (fun y => y ≤ npPercentile pr cl) ≠ [] := by
    intro hcon
    rw [hcon] at hxf
    exact absurd hxf (List.not_mem_nil x)
  refine ⟨npPercentile pr cl,
    listMean (pr.filter (fun y => y ≤ npPercentile pr cl)), ?_, ?_, ?_⟩
  · unfold getVaR
    rw [if_neg hprE]
  · unfold getCVaR listMeanOpt
    rw [if_neg hprE, if_neg (by simpa [List.isEmpty_iff] using hfne)]
  · refine listMean_le_of_forall_le _ _ hfne ?_
    intro y hy
    simpa using (List.mem_filter.mp hy).2

/-- Witness for C6 at the series `[1/10, -1/5, 3/100, 0]` and `cl = 1/20`
(the source default `cl=0.05`). -/
theorem cvar_le_var_witness :
    (([1/10, -1/5, 3/100, 0] : List ℚ) ≠ [] ∧ (0 : ℚ) ≤ 1/20 ∧ (1 : ℚ)/20 ≤ 1) ∧
    (∃ v c, getVaR [1/10, -1/5, 3/100, 0] (1/20) = some v ∧
      getCVaR [1/10, -1/5, 3/100, 0] (1/20) = some c ∧ c ≤ v) :=
  ⟨⟨by simp, by norm_num, by norm_num⟩,
    cvar_le_var [1/10, -1/5, 3/100, 0] (1/20) (by simp) (by norm_num) (by norm_num)⟩

theorem foldl_min_le_init (l : List ℚ) : ∀ x : ℚ, l.foldl min x ≤ x := by
  induction l with
  | nil => intro x; simp
  | cons a t ih =>
      intro x
      calc t.foldl min (min x a) ≤ min x a := ih _
      _ ≤ x := min_le_left _ _

theorem foldl_min_const (l : List ℚ) : ∀ x : ℚ, (∀ a ∈ l, a = x) → l.foldl min x = x := by
  induction l with
  | nil => intro x _; rfl
  | cons a t ih =>
      intro x h
      have ha : a = x := h a (List.mem_cons_self a t)
      simp only [List.foldl_cons, ha, min_self]
      exact ih x (fun b hb => h b (List.mem_cons_of_mem a hb))

theorem nanMin_cons_some_zero_le (t : List (Option ℚ)) :
    ∃ v, nanMin (some 0 :: t) = some v ∧ v ≤ 0 := by
  have hfm : (some (0 : ℚ) :: t).filterMap id = 0 :: t.filterMap id := rfl
  unfold nanMin
  rw [hfm]
  exact ⟨_, rfl, foldl_min_le_init _ _⟩

theorem nanMin_cons_all_zero (t : List (Option ℚ))
    (h : ∀ a ∈ t.filterMap id, a = 0) :
    nanMin (some 0 :: t) = some 0 := by
  have hfm : (some (0 : ℚ) :: t).filterMap id = 0 :: t.filterMap id := rfl
  unfold nanMin
  rw [hfm]
  simp only [Option.some.injEq]
  exact foldl_min_const _ 0 h

theorem nanMin_drawdown_cons (c0 : ℚ) (cs : List ℚ) (h : c0 ≠ 0) :
    ∃ v, nanMin (drawdownList (c0 :: cs) (expandingMax (c0 :: cs))) = some v ∧ v ≤ 0 := by
  have hdd : drawdownList (c0 :: cs) (expandingMax (c0 :: cs)) =
      some 0 :: drawdownList cs (expandingMaxFrom c0 cs) := by
    unfold expandingMax drawdownList
    simp only [List.zip_cons_cons, List.map_cons]
    rw [if_neg h, div_self h, sub_self]
  rw [hdd]
  exact nanMin_cons_some_zero_le _

theorem getMaxDrawdown_some_nonpos (r0 : ℚ) (rest : List ℚ) (h1 : r0 ≠ -1) :
    ∃ v, getMaxDrawdown (r0 :: rest) = some v ∧ v ≤ 0 := by
  have hc0 : (1 : ℚ) * (1 + r0) ≠ 0 := by
    intro hcon
    apply h1
    rw [one_mul] at hcon
    linarith
  have hcum : cumProd1p (r0 :: rest) =
      (1 * (1 + r0)) :: cumProdFrom (1 * (1 + r0)) (rest.map (1 + ·)) := rfl
  unfold getMaxDrawdown
  rw [if_neg (by simp)]
  dsimp only
  rw [hcum]
  exact nanMin_drawdown_cons _ _ hc0

theorem expandingMaxFrom_of_chain : ∀ (cs : List ℚ) (m : ℚ),
    List.Chain' (· ≤ ·) (m :: cs) → expandingMaxFrom m cs = cs
  | [], _, _ => rfl
  | c :: cs', m, h => by
      have hmc : m ≤ c := (List.chain'_cons.mp h).1
      have ht : List.Chain' (· ≤ ·) (c :: cs') := (List.chain'_cons.mp h).2
      unfold expandingMaxFrom
      rw [max_eq_right hmc]
      rw [expandingMaxFrom_of_chain cs' c ht]

theorem drawdownList_self (l : List ℚ) :
    drawdownList l l = l.map (fun c => if c = 0 then none else some 0) := by
  induction l with
  | nil => rfl
  | cons c cs ih =>
      unfold drawdownList at ih ⊢
      simp only [List.zip_cons_cons, List.map_cons]
      rw [ih]
      congr 1
      by_cases hc : c = 0
      · simp [hc]
      · simp [hc, div_self hc]

theorem getMaxDrawdown_monotone (r0 : ℚ) (rest : List ℚ) (h1 : r0 ≠ -1)
    (hmono : List.Chain' (· ≤ ·) (cumProd1p (r0 :: rest))) :
    getMaxDrawdown (r0 :: rest) = some 0 := by
  have hc0 : (1 : ℚ) * (1 + r0) ≠ 0 := by
    intro hcon
    apply h1
    rw [one_mul] at hcon
    linarith
  have hcum : cumProd1p (r0 :: rest) =
      (1 * (1 + r0)) :: cumProdFrom (1 * (1 + r0)) (rest.map (1 + ·)) := rfl
  have hexp : expandingMax (cumProd1p (r0 :: rest)) = cumProd1p (r0 :: rest) := by
    rw [hcum]
    dsimp only [expandingMax]
    rw [expandingMaxFrom_of_chain _ _ (hcum ▸ hmono)]
  unfold getMaxDrawdown
  rw [if_neg (by simp)]
  dsimp only
  rw [hexp, drawdownList_self, hcum, List.map_cons, if_neg hc0]
  apply nanMin_cons_all_zero
  intro a hamem
  simp only [List.mem_filterMap, List.mem_map, id] at hamem
  obtain ⟨o, ⟨c, _, hco⟩, hoa⟩ := hamem
  by_cases hcz : c = 0
  · rw [if_pos hcz] at hco
    rw [← hco] at hoa
    cases hoa
  · rw [if_neg hcz] at hco
    rw [← hco] at hoa
    exact (Option.some.injEq _ _ ▸ hoa).symm

theorem expandingMaxFrom_take : ∀ (cs : List ℚ) (m : ℚ) (i : ℕ),
    expandingMaxFrom m (cs.take i) = (expandingMaxFrom m cs).take i
  | [], m, i => by simp [expandingMaxFrom]
  | c :: cs', m, 0 => rfl
  | c :: cs', m, i + 1 => by
      simp only [List.take_succ_cons]
      unfold expandingMaxFrom
      simp only [List.take_succ_cons]
      rw [expandingMaxFrom_take cs' (max m c) i]

theorem expandingMax_take (l : List ℚ) (i : ℕ) :
    expandingMax (l.take i) = (expandingMax l).take i := by
  cases l with
  | nil => simp [expandingMax]
  | cons c cs =>
      cases i with
      | zero => rfl
      | succ j =>
          simp only [List.take_succ_cons]
          unfold expandingMax
          simp only [List.take_succ_cons]
          rw [expandingMaxFrom_take]

/-- Counterexample to claim C7 as stated: on the non-empty return series
`[-1]` the cumulative value series is `[0]`, the running maximum is `[0]`,
every drawdown entry is the indeterminate `0/0` (NaN), and
`getMaxDrawdown` returns NaN (`none`) — not a value `≤ 0`. -/
theorem maxDrawdown_nan_counterexample :
    getMaxDrawdown [(-1 : ℚ)] = none ∧
    ¬ ∃ v, getMaxDrawdown [(-1 : ℚ)] = some v ∧ v ≤ 0 := by
  have h : getMaxDrawdown [(-1 : ℚ)] = none := by
    norm_num [getMaxDrawdown, cumProd1p, cumProdFrom, expandingMax,
      expandingMaxFrom, drawdownList, nanMin]
  refine ⟨h, ?_⟩
  rintro ⟨v, hv, _⟩
  rw [h] at hv
  cases hv

/-- Claim C7 (amended): for every non-empty return series whose first return
is not exactly `-1` (equivalently, whose drawdown series is not all-NaN),
`getMaxDrawdown` returns a value and that value is `≤ 0`; it returns exactly
`some 0` when the cumulative value series `cumprod(1+r)` is monotonically
non-decreasing; and the running maximum is the expanding left-to-right
maximum, never looking ahead: the expanding maximum of every prefix is the
prefix of the expanding maximum.  (When the first return is `-1` the source
returns the NaN sentinel, the case the counterexample exhibits.) -/
theorem maxDrawdown_nonpos_amended (r0 : ℚ) (rest : List ℚ) (h1 : r0 ≠ -1) :
    (∃ v, getMaxDrawdown (r0 :: rest) = some v ∧ v ≤ 0) ∧
    (List.Chain' (· ≤ ·) (cumProd1p (r0 :: rest)) →
      getMaxDrawdown (r0 :: rest) = some 0) ∧
    (∀ (l : List ℚ) (i : ℕ), expandingMax (l.take i) = (expandingMax l).take i) :=
  ⟨getMaxDrawdown_some_nonpos r0 rest h1,
    getMaxDrawdown_monotone r0 rest h1,
    expandingMax_take⟩

/-- Witness for the amended C7 at the series `[1/10, -1/20]`. -/
theorem maxDrawdown_nonpos_amended_witness :
    ((1 : ℚ)/10 ≠ -1) ∧
    ((∃ v, getMaxDrawdown [(1 : ℚ)/10, -1/20] = some v ∧ v ≤ 0) ∧
      (List.Chain' (· ≤ ·) (cumProd1p [(1 : ℚ)/10, -1/20]) →
        getMaxDrawdown [(1 : ℚ)/10, -1/20] = some 0) ∧
      (∀ (l : List ℚ) (i : ℕ), expandingMax (l.take i) = (expandingMax l).take i)) :=
  ⟨by norm_num, maxDrawdown_nonpos_amended (1/10) [-1/20] (by norm_num)⟩

/-- Concrete two-holding portfolio for claim C1: "A" and "B" both of amount 1
(weights 1/2, 1/2), with adjusted-return series `[1/10]` and `[3/10]`;
both caches empty. -/
def c1P : Portfolio :=
  ⟨[("A", ⟨"A", 1, 1, 0, 1, [], [1/10]⟩), ("B", ⟨"B", 1, 1, 0, 1, [], [3/10]⟩)],
    0, 100, [("A", 1/2), ("B", 1/2)], none, none⟩

/-- The state after reading the return cache of `c1P`. -/
def c1P1 : Portfolio := (getPortfolioReturns c1P).2

/-- The state after additionally reading the excess-return cache (daily
risk-free rate 0). -/
def c1P2 : Portfolio := (getPortfolioExcessReturns c1P1 0).2

/-- The state after then buying `1 × 1` more of "A" (amount of "A" becomes 2,
weights become 2/3, 1/3). -/
def c1P3 : Portfolio := (update_stock c1P2 "A" 1 1 true).state

/-- Claim C1 (demonstrating the defect): after a successful `update_stock`
mutation, `getPortfolioReturns` and `getPortfolioExcessReturns` still return
the series cached before the mutation (`[1/5]`, computed from weights
1/2, 1/2), while a fresh computation from the post-mutation holdings yields
`[1/6]` (weights 2/3, 1/3) — the mutation does **not** invalidate the
caches, so the getters do not recompute as the claimed invariant requires. -/
theorem portfolio_caches_stale_after_update :
    (getPortfolioReturns c1P).1 = [1/5] ∧
    (update_stock c1P2 "A" 1 1 true).error = none ∧
    (getPortfolioReturns c1P3).1 = [1/5] ∧
    (getPortfolioExcessReturns c1P3 0).1 = [1/5] ∧
    getAdjustedReturns c1P3 = [1/6] ∧
    getAdjustedReturns c1P3 ≠ (getPortfolioReturns c1P3).1 := by
  norm_num [c1P, c1P1, c1P2, c1P3, getPortfolioReturns, getPortfolioExcessReturns,
    getAdjustedReturns, dfDot, weightOf, alistLookup, alistSet, update_stock,
    update_stock_apply, recalcWeights, getWeights, totalValue, Stock.getAmount,
    List.zipWith, List.replicate]
  rw [if_neg (show ¬ ("A" : String) = "B" by decide)]
  norm_num
